import Mathlib

/-!
Verification of the SOAP2 spot-SVD demo pipeline.

Shallow embedding of the computational core of the repository:

* `outerproduct.py` — the `OuterProduct` class (outer-product matrix,
  pixel-center-aligned display extents, the zoom branch of `plot`);
* `soap2_svd.py` — the top-level residual computation (`avg`,
  `delta_image`), its rescaling, the truncated-SVD indexing of
  `U`, `s`, `Vt`, and the zoomed sub-slicing of the third triplet;
* `soap2_data.py` — the `DynamicSpectrum` holder (`nphases`).

Matrices are lists of rows over `ℚ` (exact arithmetic standing in for
binary floating point); NumPy indexing that can raise `IndexError` is
modelled with `Option`.
-/

/-- Python indexing `xs[i]` with negative-index wraparound: `xs[-1]` is the
last element; out-of-range access is `none` (`IndexError`). -/
def pyGet {α : Type} (xs : List α) (i : Int) : Option α :=
  let j : Int := if i < 0 then (xs.length : Int) + i else i
  if 0 ≤ j then xs[j.toNat]? else none

/-- Python slicing `xs[i1:i2]` for non-negative bounds (as used at the
`soap2_svd.py` zoom call site): elements `i1, ..., i2-1`, clamped. -/
def pySlice {α : Type} (xs : List α) (i1 i2 : ℕ) : List α :=
  (xs.drop i1).take (i2 - i1)

/-- `np.outer(u, v)`: the matrix whose `(i, j)` entry is `u[i] * v[j]`
(`outerproduct.py`, line 30). -/
def outerMat (u v : List ℚ) : List (List ℚ) :=
  u.map (fun ui => v.map (fun vj => ui * vj))

/-- NumPy `.transpose()` of a rectangular list-of-rows matrix. -/
def transposeMat (m : List (List ℚ)) : List (List ℚ) :=
  match m with
  | [] => []
  | r :: _ => (List.range r.length).map (fun j => m.map (fun row => row.getD j 0))

/-- The state an `OuterProduct` instance holds after `__init__`
(`outerproduct.py`, lines 21-30). -/
structure OuterProduct where
  xvals : List ℚ
  uvals : List ℚ
  yvals : List ℚ
  vvals : List ℚ
  outer : List (List ℚ)
deriving DecidableEq

/-- `OuterProduct.__init__(xvals, uvals, yvals, vvals)`: stores the four
vectors and computes `np.outer(uvals, vvals)`.  The source performs no
validation of lengths or sample counts. -/
def OuterProduct.init (xvals uvals yvals vvals : List ℚ) : OuterProduct :=
  { xvals := xvals, uvals := uvals, yvals := yvals, vvals := vvals,
    outer := outerMat uvals vvals }

/-- The display extents computed inside `OuterProduct.plot`
(`outerproduct.py`, lines 44-53): each endpoint is shifted by half the
local sample spacing so samples land at pixel centers.  Grid accesses
`xvals[1]` and `xvals[-2]` raise `IndexError` (here: `none`) when an
axis has fewer than 2 samples. -/
def OuterProduct.extents (m : OuterProduct) : Option (ℚ × ℚ × ℚ × ℚ) := do
  let x0 ← pyGet m.xvals 0
  let x1 ← pyGet m.xvals 1
  let xn1 ← pyGet m.xvals (-1)
  let xn2 ← pyGet m.xvals (-2)
  let y0 ← pyGet m.yvals 0
  let y1 ← pyGet m.yvals 1
  let yn1 ← pyGet m.yvals (-1)
  let yn2 ← pyGet m.yvals (-2)
  pure (x0 - (1/2) * (x1 - x0), xn1 + (1/2) * (xn1 - xn2),
        y0 - (1/2) * (y1 - y0), yn1 + (1/2) * (yn1 - yn2))

/-- The sub-slicing zoom pattern of `soap2_svd.py`, lines 263-268:
a new model built from `xvals[i1:i2]`, `uvals[i1:i2]` with the y-axis
unchanged (the spec's `restrict`). -/
def OuterProduct.restrict (m : OuterProduct) (i1 i2 : ℕ) : OuterProduct :=
  OuterProduct.init (pySlice m.xvals i1 i2) (pySlice m.uvals i1 i2) m.yvals m.vvals

/-- `soap2_svd.py`, lines 263-268 verbatim: the zoomed third-triplet model is
built from sliced `lambdas` and a sliced `Vt` row, with the full phase grid. -/
def zoomedSVD3 (lambdas vrow phases urow : List ℚ) (i1 i2 : ℕ) : OuterProduct :=
  OuterProduct.init (pySlice lambdas i1 i2) (pySlice vrow i1 i2) phases urow

/-- The zoom branch of `OuterProduct.plot` (`outerproduct.py`, lines 80-89)
records what is handed to the renderer: the displayed image array, the
`imshow` extent rectangle, and the axis limits applied afterwards. -/
structure ZoomView where
  image : List (List ℚ)
  extent : ℚ × ℚ × ℚ × ℚ
  xlim : ℚ × ℚ
  ylim : ℚ × ℚ
deriving DecidableEq

/-- The zoom branch of `OuterProduct.plot`: a fresh figure shows
`self.outer.transpose()` with the full-range extents, and then `xlim`/`ylim`
are set to the requested zoom ranges (`outerproduct.py`, lines 80-89). -/
def OuterProduct.plotZoom (m : OuterProduct) (zx zy : ℚ × ℚ) : Option ZoomView := do
  let e ← m.extents
  pure { image := transposeMat m.outer, extent := e, xlim := zx, ylim := zy }

/-- Columnwise sums of a list-of-rows matrix: NumPy `active.sum(0)`
(for matrices whose rows all have one common length). -/
def sum0 : List (List ℚ) → List ℚ
  | [] => []
  | [r] => r
  | r :: rs => (sum0 rs).zipWith (· + ·) r

/-- `soap2_svd.py`, line 56: `avg = dynspec.active.sum(0) / dynspec.nphases`.
The divisor is the dataset's `nphases`, not the matrix's own row count. -/
def avgSpec (active : List (List ℚ)) (nphases : ℕ) : List ℚ :=
  (sum0 active).map (fun s => s / (nphases : ℚ))

/-- `soap2_svd.py`, line 57: `delta_image = dynspec.active - avg`
(rowwise broadcast subtraction of the average vector). -/
def deltaImage (active : List (List ℚ)) (nphases : ℕ) : List (List ℚ) :=
  active.map (fun row => row.zipWith (· - ·) (avgSpec active nphases))

/-- The columnwise mean where the divisor is the matrix's own row count
(the reference value the spec's `average` is defined as). -/
def trueColMean (active : List (List ℚ)) : List ℚ :=
  (sum0 active).map (fun s => s / (active.length : ℚ))

/-- Python `min` of all elements reached by NumPy `.min()`; `none` on an
empty array (where NumPy raises). -/
def listMin : List ℚ → Option ℚ
  | [] => none
  | a :: rest => some (rest.foldl min a)

/-- Python `max` of all elements reached by NumPy `.max()`; `none` on an
empty array (where NumPy raises). -/
def listMax : List ℚ → Option ℚ
  | [] => none
  | a :: rest => some (rest.foldl max a)

/-- `soap2_svd.py`, lines 58-60: `l, u = delta_image.min(), delta_image.max();
delta_image = (delta_image - l)/(u - l)`.  No degenerate-range check is
performed: when `u = l` the source divides by zero (producing IEEE junk
values; total `ℚ` division stands in for them here). -/
def normalizeCode (m : List (List ℚ)) : Option (List (List ℚ)) :=
  match listMin m.flatten, listMax m.flatten with
  | some l, some u => some (m.map (fun row => row.map (fun x => (x - l) / (u - l))))
  | _, _ => none

/-- Result type for the spec's normalization operation. -/
inductive NormResult where
  | ok (res : List (List ℚ))
  | degenerateRange
deriving DecidableEq

/-- Modelled from the spec: `normalize(delta_matrix)` with the required
check "If `max == min` (degenerate/flat input), signal `DegenerateRange`
rather than dividing by zero."  This operation is absent from the source
(`soap2_svd.py` rescales unconditionally); it is defined here only to be
compared with `normalizeCode`. -/
def normalizeSpec (m : List (List ℚ)) : NormResult :=
  match listMin m.flatten, listMax m.flatten with
  | some l, some u =>
      if l = u then .degenerateRange
      else .ok (m.map (fun row => row.map (fun x => (x - l) / (u - l))))
  | _, _ => .degenerateRange

/-- Result type for the spec's checked outer-product build. -/
inductive BuildResult where
  | ok (m : OuterProduct)
  | insufficientSamples
deriving DecidableEq

/-- Modelled from the spec: `build(x_grid, u_of_x, y_grid, v_of_y)` with the
required eager precondition checks (`len(x_grid) == len(u_of_x) ≥ 2`,
`len(y_grid) == len(v_of_y) ≥ 2`, else `InsufficientSamples`).  The source
`OuterProduct.__init__` performs none of these checks; this definition
exists only to be compared with `OuterProduct.init`. -/
def buildSpec (x u y v : List ℚ) : BuildResult :=
  if x.length = u.length ∧ 2 ≤ x.length ∧ y.length = v.length ∧ 2 ≤ y.length then
    .ok (OuterProduct.init x u y v)
  else .insufficientSamples

/-- The in-memory dynamic-spectrum dataset loaded by
`soap2_data.DynamicSpectrum`: wavelength grid, quiet spectrum, phase grid,
and the phase-by-wavelength active matrix. -/
structure DynamicSpectrum where
  lambdas : List ℚ
  quiet : List ℚ
  phases : List ℚ
  active : List (List ℚ)

/-- `soap2_data.py`, line 74: `self.nphases = len(self.phases)`. -/
def DynamicSpectrum.nphases (d : DynamicSpectrum) : ℕ :=
  d.phases.length

/-- `soap2_svd.py`, line 56 applied to a dataset: the pipeline's average
spectrum, dividing columnwise sums by `nphases`. -/
def pipelineAvg (d : DynamicSpectrum) : List ℚ :=
  avgSpec d.active d.nphases

/-- The output of the truncated-SVD primitive as the pipeline receives it:
`U` (rows indexed by phase, columns by triplet), the singular values `s`,
and `Vt` (rows indexed by triplet). -/
structure SVDResult where
  U : List (List ℚ)
  s : List ℚ
  Vt : List (List ℚ)

/-- NumPy column extraction `U[:, i]` (with Python index wraparound);
`none` if any row lacks the index. -/
def pyColumn (m : List (List ℚ)) (i : Int) : Option (List ℚ) :=
  m.mapM (fun row => pyGet row i)

/-- The pipeline's selection of the `j`-th most dominant singular triplet
(`soap2_svd.py`, lines 228-242): singular value `s[-j]`, phase basis
`U[:, -j]`, wavelength basis `Vt[-j, :]`. -/
def nthTriplet (r : SVDResult) (j : ℕ) : Option (ℚ × List ℚ × List ℚ) :=
  (pyGet r.s (-(j : Int))).bind fun sv =>
    (pyColumn r.U (-(j : Int))).bind fun pu =>
      (pyGet r.Vt (-(j : Int))).map fun wv => (sv, pu, wv)

example : outerMat [1, 2, 3] [1, 0, -1] = [[1, 0, -1], [2, 0, -2], [3, 0, -3]] := by
  norm_num [outerMat]
example : (OuterProduct.init [1, 2, 3, 4, 5] [0, 0, 0, 0, 0] [0, 1] [0, 0]).extents
    = some (1/2, 11/2, -1/2, 3/2) := by
  norm_num [OuterProduct.extents, OuterProduct.init, pyGet, Int.toNat]
example : (OuterProduct.init [0, 1, 3, 7] [0, 0, 0, 0] [0, 1] [0, 0]).extents
    = some (-1/2, 9, -1/2, 3/2) := by
  norm_num [OuterProduct.extents, OuterProduct.init, pyGet, Int.toNat]
example : (OuterProduct.init [1] [2] [3, 4] [5, 6]).extents = none := by
  norm_num [OuterProduct.extents, OuterProduct.init, pyGet, Int.toNat]
example : avgSpec [[1, 2], [3, 4]] 2 = [2, 3] := by
  norm_num [avgSpec, sum0]
example : deltaImage [[1, 2], [3, 4]] 2 = [[-1, -1], [1, 1]] := by
  norm_num [deltaImage, avgSpec, sum0]
example : normalizeCode [[1, 1], [1, 1]] = some [[0, 0], [0, 0]] := by
  norm_num [normalizeCode, listMin, listMax, List.replicate]
example : normalizeSpec [[1, 1], [1, 1]] = NormResult.degenerateRange := by
  norm_num [normalizeSpec, listMin, listMax]
example : nthTriplet ⟨[[1, 0], [0, 1]], [1, 2], [[1, 0, 0], [0, 1, 0]]⟩ 1
    = some (2, [0, 1], [0, 1, 0]) := by
  norm_num [nthTriplet, pyGet, pyColumn, Int.toNat, List.mapM, List.mapM.loop]

theorem pyGet_zero {α : Type} (xs : List α) : pyGet xs 0 = xs[0]? := by
  simp [pyGet]

theorem pyGet_one {α : Type} (xs : List α) : pyGet xs 1 = xs[1]? := by
  simp [pyGet, Int.toNat]

theorem pyGet_negOne {α : Type} (xs : List α) (h : 1 ≤ xs.length) :
    pyGet xs (-1) = xs[xs.length - 1]? := by
  have h2 : ((xs.length : Int) + -1).toNat = xs.length - 1 := by omega
  simp only [pyGet]
  rw [if_pos (by omega), if_pos (by omega), h2]

theorem pyGet_negTwo {α : Type} (xs : List α) (h : 2 ≤ xs.length) :
    pyGet xs (-2) = xs[xs.length - 2]? := by
  have h2 : ((xs.length : Int) + -2).toNat = xs.length - 2 := by omega
  simp only [pyGet]
  rw [if_pos (by omega), if_pos (by omega), h2]

theorem pyGet_neg {α : Type} (xs : List α) (j : ℕ) (h1 : 1 ≤ j) (hj : j ≤ xs.length) :
    pyGet xs (-(j : Int)) = xs[xs.length - j]? := by
  have h2 : ((xs.length : Int) + -(j : Int)).toNat = xs.length - j := by omega
  simp only [pyGet]
  rw [if_pos (by omega), if_pos (by omega), h2]

theorem getElem?_eq_some_getD (xs : List ℚ) (n : ℕ) (h : n < xs.length) :
    xs[n]? = some (xs.getD n 0) := by
  rw [List.getElem?_eq_getElem h, List.getD_eq_getElem xs 0 h]

theorem extents_eq (x u y v : List ℚ) (hx : 2 ≤ x.length) (hy : 2 ≤ y.length) :
    (OuterProduct.init x u y v).extents = some
      (x.getD 0 0 - (1/2) * (x.getD 1 0 - x.getD 0 0),
       x.getD (x.length - 1) 0 + (1/2) * (x.getD (x.length - 1) 0 - x.getD (x.length - 2) 0),
       y.getD 0 0 - (1/2) * (y.getD 1 0 - y.getD 0 0),
       y.getD (y.length - 1) 0 + (1/2) * (y.getD (y.length - 1) 0 - y.getD (y.length - 2) 0)) := by
  have hx0 : pyGet x 0 = some (x.getD 0 0) := by
    rw [pyGet_zero, getElem?_eq_some_getD _ _ (by omega)]
  have hx1 : pyGet x 1 = some (x.getD 1 0) := by
    rw [pyGet_one, getElem?_eq_some_getD _ _ (by omega)]
  have hxn1 : pyGet x (-1) = some (x.getD (x.length - 1) 0) := by
    rw [pyGet_negOne _ (by omega), getElem?_eq_some_getD _ _ (by omega)]
  have hxn2 : pyGet x (-2) = some (x.getD (x.length - 2) 0) := by
    rw [pyGet_negTwo _ (by omega), getElem?_eq_some_getD _ _ (by omega)]
  have hy0 : pyGet y 0 = some (y.getD 0 0) := by
    rw [pyGet_zero, getElem?_eq_some_getD _ _ (by omega)]
  have hy1 : pyGet y 1 = some (y.getD 1 0) := by
    rw [pyGet_one, getElem?_eq_some_getD _ _ (by omega)]
  have hyn1 : pyGet y (-1) = some (y.getD (y.length - 1) 0) := by
    rw [pyGet_negOne _ (by omega), getElem?_eq_some_getD _ _ (by omega)]
  have hyn2 : pyGet y (-2) = some (y.getD (y.length - 2) 0) := by
    rw [pyGet_negTwo _ (by omega), getElem?_eq_some_getD _ _ (by omega)]
  simp [OuterProduct.extents, OuterProduct.init, hx0, hx1, hxn1, hxn2, hy0, hy1, hyn1, hyn2]

theorem opt_bind_const_none {α β : Type} (m : Option α) :
    (m.bind fun _ => (none : Option β)) = none := by
  cases m <;> rfl

theorem extents_none_of_small (m : OuterProduct)
    (h : m.xvals.length < 2 ∨ m.yvals.length < 2) : m.extents = none := by
  rcases h with h | h
  · have h1 : pyGet m.xvals 1 = none := by
      rw [pyGet_one]; exact List.getElem?_eq_none (by omega)
    simp [OuterProduct.extents, h1, opt_bind_const_none]
  · have h1 : pyGet m.yvals 1 = none := by
      rw [pyGet_one]; exact List.getElem?_eq_none (by omega)
    simp [OuterProduct.extents, h1, opt_bind_const_none]

/-- C2: for input vectors `u` (length N) and `v` (length P), the constructed
outer-product matrix has shape N × P with `matrix[i][j] = u[i] * v[j]`, and
in particular `outer([1,2,3], [1,0,-1]) = [[1,0,-1],[2,0,-2],[3,0,-3]]`
exactly. -/
theorem C2_outer_product_entries (x u y v : List ℚ) (i j : ℕ)
    (hi : i < u.length) (hj : j < v.length) :
    (OuterProduct.init x u y v).outer.length = u.length ∧
    (∀ row ∈ (OuterProduct.init x u y v).outer, row.length = v.length) ∧
    ((OuterProduct.init x u y v).outer.getD i []).getD j 0 = u.getD i 0 * v.getD j 0 ∧
    outerMat [1, 2, 3] [1, 0, -1] = [[1, 0, -1], [2, 0, -2], [3, 0, -3]] := by
  refine ⟨by simp [OuterProduct.init, outerMat], ?_, ?_, by norm_num [outerMat]⟩
  · intro row hrow
    simp only [OuterProduct.init, outerMat, List.mem_map] at hrow
    obtain ⟨a, ha, hrw⟩ := hrow
    rw [← hrw]
    simp
  · have hrow : (outerMat u v).getD i [] = v.map (fun vj => u[i] * vj) := by
      rw [outerMat, List.getD_eq_getElem _ _ (by simpa using hi), List.getElem_map]
    show ((outerMat u v).getD i []).getD j 0 = u.getD i 0 * v.getD j 0
    rw [hrow, List.getD_eq_getElem _ _ (by simpa using hj), List.getElem_map,
      List.getD_eq_getElem _ _ hi, List.getD_eq_getElem _ _ hj]

/-- Witness for C2 at `u = [1,2,3]`, `v = [1,0,-1]`, entry (2, 0). -/
theorem C2_outer_product_entries_witness :
    (OuterProduct.init [9] [1, 2, 3] [9] [1, 0, -1]).outer.length = 3 ∧
    (∀ row ∈ (OuterProduct.init [9] [1, 2, 3] [9] [1, 0, -1]).outer, row.length = 3) ∧
    ((OuterProduct.init [9] [1, 2, 3] [9] [1, 0, -1]).outer.getD 2 []).getD 0 0
      = ([1, 2, 3] : List ℚ).getD 2 0 * ([1, 0, -1] : List ℚ).getD 0 0 ∧
    outerMat [1, 2, 3] [1, 0, -1] = [[1, 0, -1], [2, 0, -2], [3, 0, -3]] :=
  C2_outer_product_entries [9] [1, 2, 3] [9] [1, 0, -1] 2 0 (by norm_num) (by norm_num)

/-- C3: for grids with at least 2 samples per axis, the display extents use
the local spacing at each end (`x_low = x[0] - (x[1]-x[0])/2`,
`x_high = x[-1] + (x[-1]-x[-2])/2`, symmetrically for y); in particular
`[1,2,3,4,5]` yields (0.5, 5.5) and the non-uniform `[0,1,3,7]` yields
(-0.5, 9.0). -/
theorem C3_pixel_alignment (x u y v : List ℚ) (hx : 2 ≤ x.length) (hy : 2 ≤ y.length) :
    (OuterProduct.init x u y v).extents = some
      (x.getD 0 0 - (1/2) * (x.getD 1 0 - x.getD 0 0),
       x.getD (x.length - 1) 0 + (1/2) * (x.getD (x.length - 1) 0 - x.getD (x.length - 2) 0),
       y.getD 0 0 - (1/2) * (y.getD 1 0 - y.getD 0 0),
       y.getD (y.length - 1) 0 + (1/2) * (y.getD (y.length - 1) 0 - y.getD (y.length - 2) 0)) ∧
    (OuterProduct.init [1, 2, 3, 4, 5] [0, 0, 0, 0, 0] [0, 1] [0, 0]).extents
      = some (1/2, 11/2, -1/2, 3/2) ∧
    (OuterProduct.init [0, 1, 3, 7] [0, 0, 0, 0] [0, 1] [0, 0]).extents
      = some (-1/2, 9, -1/2, 3/2) :=
  ⟨extents_eq x u y v hx hy,
   by norm_num [OuterProduct.extents, OuterProduct.init, pyGet, Int.toNat],
   by norm_num [OuterProduct.extents, OuterProduct.init, pyGet, Int.toNat]⟩

/-- Witness for C3 at the uniform grid `[1,2,3,4,5]` (and y-grid `[0,1]`). -/
theorem C3_pixel_alignment_witness :
    (OuterProduct.init [1, 2, 3, 4, 5] [0, 0, 0, 0, 0] [0, 1] [0, 0]).extents
      = some (1/2, 11/2, -1/2, 3/2) :=
  (C3_pixel_alignment [1, 2, 3, 4, 5] [0, 0, 0, 0, 0] [0, 1] [0, 0]
    (by norm_num) (by norm_num)).2.1

/-- C7 counterexample: for `x_grid = [1]`, `u_of_x = [2]` (a 1-sample x-axis)
the spec-modelled checked build signals `InsufficientSamples`, but the source
constructor succeeds — it produces a model whose outer matrix is computed —
and the missing-sample failure only occurs later, when `plot` reads
`xvals[1]` to compute extents.  This refutes the claim that all
preconditions are checked eagerly at construction. -/
theorem C7_counterexample :
    buildSpec [1] [2] [3, 4] [5, 6] = BuildResult.insufficientSamples ∧
    (OuterProduct.init [1] [2] [3, 4] [5, 6]).outer = [[10, 12]] ∧
    (OuterProduct.init [1] [2] [3, 4] [5, 6]).extents = none := by
  refine ⟨by norm_num [buildSpec], by norm_num [OuterProduct.init, outerMat], ?_⟩
  exact extents_none_of_small _ (by norm_num [OuterProduct.init])

/-- C7 (amended): construction performs no precondition checks — every input
yields a model whose outer matrix is `np.outer(u, v)` — and when an axis has
fewer than 2 samples the failure surfaces only later, when `plot` computes
the display extents (an out-of-range grid access). -/
theorem C7_no_eager_checks (x u y v : List ℚ) (h : x.length < 2 ∨ y.length < 2) :
    (OuterProduct.init x u y v).outer = outerMat u v ∧
    (OuterProduct.init x u y v).extents = none :=
  ⟨rfl, extents_none_of_small _ (by simpa [OuterProduct.init] using h)⟩

/-- Witness for the amended C7 at a 1-sample x-axis. -/
theorem C7_no_eager_checks_witness :
    (OuterProduct.init [1] [2] [3, 4] [5, 6]).outer = outerMat [2] [5, 6] ∧
    (OuterProduct.init [1] [2] [3, 4] [5, 6]).extents = none :=
  C7_no_eager_checks [1] [2] [3, 4] [5, 6] (by norm_num)

theorem pySlice_full {α : Type} (xs : List α) : pySlice xs 0 xs.length = xs := by
  simp [pySlice]

theorem pySlice_full_of_length_eq {α : Type} (xs : List α) (n : ℕ) (h : xs.length = n) :
    pySlice xs 0 n = xs := by
  rw [← h, pySlice_full]

theorem pySlice_pySlice {α : Type} (xs : List α) (a b c d : ℕ) (h : a + d ≤ b) :
    pySlice (pySlice xs a b) c d = pySlice xs (a + c) (a + d) := by
  simp only [pySlice, List.drop_take, List.drop_drop]
  rw [List.take_take]
  have h1 : min (d - c) (b - a - c) = d - c := by omega
  have h2 : a + d - (a + c) = d - c := by omega
  rw [h1, h2]

/-- C8: `restrict` over the full index range returns a model equal to the
original in all fields (hence with equal extents), and two nested
`restrict`s compose into the single `restrict` to the inner range. -/
theorem C8_restrict_full_and_compose (x u y v : List ℚ) (a b c d : ℕ)
    (hlen : u.length = x.length) (_hcd : c ≤ d) (hnest : a + d ≤ b) :
    (OuterProduct.init x u y v).restrict 0 x.length = OuterProduct.init x u y v ∧
    ((OuterProduct.init x u y v).restrict 0 x.length).extents
      = (OuterProduct.init x u y v).extents ∧
    ((OuterProduct.init x u y v).restrict a b).restrict c d
      = (OuterProduct.init x u y v).restrict (a + c) (a + d) := by
  have hfull : (OuterProduct.init x u y v).restrict 0 x.length = OuterProduct.init x u y v := by
    simp only [OuterProduct.restrict, OuterProduct.init, pySlice_full,
      pySlice_full_of_length_eq u x.length hlen]
  refine ⟨hfull, by rw [hfull], ?_⟩
  simp only [OuterProduct.restrict, OuterProduct.init, OuterProduct.mk.injEq,
    pySlice_pySlice _ _ _ _ _ hnest]

/-- Witness for C8: full-range restrict and nested composition on a concrete
model (`a = 1, b = 4, c = 1, d = 3`). -/
theorem C8_restrict_full_and_compose_witness :
    (OuterProduct.init [0, 1, 2, 3, 4] [5, 6, 7, 8, 9] [0, 1] [1, 2]).restrict 0
        ([0, 1, 2, 3, 4] : List ℚ).length
      = OuterProduct.init [0, 1, 2, 3, 4] [5, 6, 7, 8, 9] [0, 1] [1, 2] ∧
    ((OuterProduct.init [0, 1, 2, 3, 4] [5, 6, 7, 8, 9] [0, 1] [1, 2]).restrict 0
        ([0, 1, 2, 3, 4] : List ℚ).length).extents
      = (OuterProduct.init [0, 1, 2, 3, 4] [5, 6, 7, 8, 9] [0, 1] [1, 2]).extents ∧
    ((OuterProduct.init [0, 1, 2, 3, 4] [5, 6, 7, 8, 9] [0, 1] [1, 2]).restrict 1 4).restrict 1 3
      = (OuterProduct.init [0, 1, 2, 3, 4] [5, 6, 7, 8, 9] [0, 1] [1, 2]).restrict 2 4 :=
  C8_restrict_full_and_compose [0, 1, 2, 3, 4] [5, 6, 7, 8, 9] [0, 1] [1, 2] 1 4 1 3
    (by norm_num) (by norm_num) (by norm_num)

/-- C9 counterexample: for the model on `x_grid = [0,1,2,3]`,
`y_grid = [0,1,2]` and the zoom request `((1/2, 3/2), (0, 1))`, the zoom
branch of `plot` hands the renderer the full-range transposed matrix with
the full-range extents `(-1/2, 7/2, -1/2, 5/2)` and only then sets the axis
limits to the requested ranges — the limits rectangle differs from the
extent rectangle, so the zoom is a post-hoc axis-limit change on the
already-built full-range model, not a `restrict`-built sub-model. -/
theorem C9_counterexample :
    (OuterProduct.init [0, 1, 2, 3] [1, 2, 3, 4] [0, 1, 2] [1, 1, 1]).plotZoom
        (1/2, 3/2) (0, 1)
      = some { image := transposeMat (outerMat [1, 2, 3, 4] [1, 1, 1]),
               extent := (-1/2, 7/2, -1/2, 5/2),
               xlim := (1/2, 3/2), ylim := (0, 1) } ∧
    ((-1/2 : ℚ), (7/2 : ℚ), (-1/2 : ℚ), (5/2 : ℚ))
      ≠ ((1/2 : ℚ), (3/2 : ℚ), (0 : ℚ), (1 : ℚ)) := by
  constructor
  · have he : (OuterProduct.init [0, 1, 2, 3] [1, 2, 3, 4] [0, 1, 2] [1, 1, 1]).extents
        = some (-1/2, 7/2, -1/2, 5/2) := by
      norm_num [OuterProduct.extents, OuterProduct.init, pyGet, Int.toNat]
    simp only [OuterProduct.plotZoom, he, Option.bind_eq_bind, Option.some_bind]
    rfl
  · norm_num

/-- C9 (amended): the zoom request accepted by `plot` is fulfilled by
re-displaying the full-range matrix with the full-range extents and then
setting the axis limits to the requested ranges (a post-hoc view change on
the already-built model); sub-slice zoom is performed only manually by the
caller (`soap2_svd.py`, zoomed SVD3 block), whose construction coincides
with `restrict` of the full model. -/
theorem C9_zoom_posthoc (m : OuterProduct) (zx zy : ℚ × ℚ) (e : ℚ × ℚ × ℚ × ℚ)
    (lambdas vrow phases urow : List ℚ) (i1 i2 : ℕ)
    (he : m.extents = some e) :
    m.plotZoom zx zy
      = some { image := transposeMat m.outer, extent := e, xlim := zx, ylim := zy } ∧
    zoomedSVD3 lambdas vrow phases urow i1 i2
      = (OuterProduct.init lambdas vrow phases urow).restrict i1 i2 :=
  ⟨by simp [OuterProduct.plotZoom, he], rfl⟩

/-- Witness for the amended C9 on a concrete model and zoom request. -/
theorem C9_zoom_posthoc_witness :
    (OuterProduct.init [0, 1, 2, 3] [1, 2, 3, 4] [0, 1, 2] [1, 1, 1]).plotZoom
        (1/2, 3/2) (0, 1)
      = some { image :=
                 transposeMat (OuterProduct.init [0, 1, 2, 3] [1, 2, 3, 4] [0, 1, 2] [1, 1, 1]).outer,
               extent := (-1/2, 7/2, -1/2, 5/2),
               xlim := (1/2, 3/2), ylim := (0, 1) } ∧
    zoomedSVD3 [0, 1, 2, 3] [1, 2, 3, 4] [0, 1, 2] [1, 1, 1] 1 3
      = (OuterProduct.init [0, 1, 2, 3] [1, 2, 3, 4] [0, 1, 2] [1, 1, 1]).restrict 1 3 :=
  C9_zoom_posthoc (OuterProduct.init [0, 1, 2, 3] [1, 2, 3, 4] [0, 1, 2] [1, 1, 1])
    (1/2, 3/2) (0, 1) (-1/2, 7/2, -1/2, 5/2) [0, 1, 2, 3] [1, 2, 3, 4] [0, 1, 2] [1, 1, 1] 1 3
    (by norm_num [OuterProduct.extents, OuterProduct.init, pyGet, Int.toNat])

theorem foldl_min_le_init (l : List ℚ) (a : ℚ) : l.foldl min a ≤ a := by
  induction l generalizing a with
  | nil => simp
  | cons b t ih =>
    simpa using le_trans (ih (min a b)) (min_le_left a b)

theorem foldl_min_le_mem (l : List ℚ) (a : ℚ) (x : ℚ) (hx : x ∈ l) : l.foldl min a ≤ x := by
  induction l generalizing a with
  | nil => cases hx
  | cons b t ih =>
    rcases List.mem_cons.mp hx with h | h
    · subst h
      simpa using le_trans (foldl_min_le_init t (min a x)) (min_le_right a x)
    · simpa using ih (min a b) h

theorem foldl_min_mem (l : List ℚ) (a : ℚ) : l.foldl min a = a ∨ l.foldl min a ∈ l := by
  induction l generalizing a with
  | nil => simp
  | cons b t ih =>
    rcases ih (min a b) with h | h
    · rcases min_choice a b with hc | hc
      · left
        simpa [hc] using h
      · right
        rw [List.mem_cons]
        left
        simpa [hc] using h
    · right
      rw [List.mem_cons]
      right
      simpa using h

theorem listMin_spec (l : List ℚ) (m : ℚ) (h : listMin l = some m) :
    m ∈ l ∧ ∀ x ∈ l, m ≤ x := by
  match l, h with
  | a :: t, h =>
    have hm : m = t.foldl min a := by
      simpa [listMin] using h.symm
    constructor
    · rcases foldl_min_mem t a with h1 | h1
      · rw [hm, h1]; exact List.mem_cons_self a t
      · rw [hm]; exact List.mem_cons_of_mem a h1
    · intro x hx
      rcases List.mem_cons.mp hx with h1 | h1
      · rw [hm, h1]; exact foldl_min_le_init t a
      · rw [hm]; exact foldl_min_le_mem t a x h1

theorem foldl_max_ge_init (l : List ℚ) (a : ℚ) : a ≤ l.foldl max a := by
  induction l generalizing a with
  | nil => simp
  | cons b t ih =>
    simpa using le_trans (le_max_left a b) (ih (max a b))

theorem foldl_max_ge_mem (l : List ℚ) (a : ℚ) (x : ℚ) (hx : x ∈ l) : x ≤ l.foldl max a := by
  induction l generalizing a with
  | nil => cases hx
  | cons b t ih =>
    rcases List.mem_cons.mp hx with h | h
    · subst h
      simpa using le_trans (le_max_right a x) (foldl_max_ge_init t (max a x))
    · simpa using ih (max a b) h

theorem foldl_max_mem (l : List ℚ) (a : ℚ) : l.foldl max a = a ∨ l.foldl max a ∈ l := by
  induction l generalizing a with
  | nil => simp
  | cons b t ih =>
    rcases ih (max a b) with h | h
    · rcases max_choice a b with hc | hc
      · left
        simpa [hc] using h
      · right
        rw [List.mem_cons]
        left
        simpa [hc] using h
    · right
      rw [List.mem_cons]
      right
      simpa using h

theorem listMax_spec (l : List ℚ) (m : ℚ) (h : listMax l = some m) :
    m ∈ l ∧ ∀ x ∈ l, x ≤ m := by
  match l, h with
  | a :: t, h =>
    have hm : m = t.foldl max a := by
      simpa [listMax] using h.symm
    constructor
    · rcases foldl_max_mem t a with h1 | h1
      · rw [hm, h1]; exact List.mem_cons_self a t
      · rw [hm]; exact List.mem_cons_of_mem a h1
    · intro x hx
      rcases List.mem_cons.mp hx with h1 | h1
      · rw [hm, h1]; exact foldl_max_ge_init t a
      · rw [hm]; exact foldl_max_ge_mem t a x h1

/-- C5: whenever the matrix's maximum entry differs from its minimum entry,
every entry of the rescaled matrix `(delta - min) / (max - min)` lies in
`[0, 1]`, with some entry exactly 0 and some entry exactly 1. -/
theorem C5_normalization_bounds (m : List (List ℚ)) (l u : ℚ)
    (hl : listMin m.flatten = some l) (hu : listMax m.flatten = some u) (hne : l ≠ u) :
    ∃ res, normalizeCode m = some res ∧
      (∀ row ∈ res, ∀ x ∈ row, 0 ≤ x ∧ x ≤ 1) ∧
      (∃ row ∈ res, (0 : ℚ) ∈ row) ∧
      (∃ row ∈ res, (1 : ℚ) ∈ row) := by
  obtain ⟨hlmem, hlle⟩ := listMin_spec _ _ hl
  obtain ⟨humem, huge⟩ := listMax_spec _ _ hu
  have hlu : l < u := lt_of_le_of_ne (hlle u humem) hne
  have hpos : 0 < u - l := by linarith
  refine ⟨m.map (fun row => row.map (fun x => (x - l) / (u - l))), ?_, ?_, ?_, ?_⟩
  · rw [normalizeCode, hl, hu]
  · intro row hrow x hx
    rw [List.mem_map] at hrow
    obtain ⟨row0, hrow0, hmap⟩ := hrow
    rw [← hmap, List.mem_map] at hx
    obtain ⟨x0, hx0, hxeq⟩ := hx
    have hxin : x0 ∈ m.flatten := List.mem_flatten.mpr ⟨row0, hrow0, hx0⟩
    constructor
    · rw [← hxeq]
      exact div_nonneg (by linarith [hlle x0 hxin]) (le_of_lt hpos)
    · rw [← hxeq]
      rw [div_le_one hpos]
      linarith [huge x0 hxin]
  · obtain ⟨row0, hrow0, hlin⟩ := List.mem_flatten.mp hlmem
    refine ⟨row0.map (fun x => (x - l) / (u - l)), List.mem_map_of_mem _ hrow0, ?_⟩
    rw [List.mem_map]
    exact ⟨l, hlin, by simp⟩
  · obtain ⟨row0, hrow0, huin⟩ := List.mem_flatten.mp humem
    refine ⟨row0.map (fun x => (x - l) / (u - l)), List.mem_map_of_mem _ hrow0, ?_⟩
    rw [List.mem_map]
    exact ⟨u, huin, div_self (ne_of_gt hpos)⟩

/-- Witness for C5 on the matrix `[[0, 2], [1, 1]]` (min 0, max 2). -/
theorem C5_normalization_bounds_witness :
    ∃ res, normalizeCode [[0, 2], [1, 1]] = some res ∧
      (∀ row ∈ res, ∀ x ∈ row, 0 ≤ x ∧ x ≤ 1) ∧
      (∃ row ∈ res, (0 : ℚ) ∈ row) ∧
      (∃ row ∈ res, (1 : ℚ) ∈ row) :=
  C5_normalization_bounds [[0, 2], [1, 1]] 0 2
    (by norm_num [listMin]) (by norm_num [listMax]) (by norm_num)

/-- C6 counterexample: on the flat matrix `[[1, 1], [1, 1]]` (zero dynamic
range) the spec-modelled operation signals `DegenerateRange`, but the source
performs no such check: it divides by zero and still produces a result
matrix (of junk values), so the claim that no normalized result is produced
is false. -/
theorem C6_counterexample :
    normalizeSpec [[1, 1], [1, 1]] = NormResult.degenerateRange ∧
    normalizeCode [[1, 1], [1, 1]] = some [[0, 0], [0, 0]] :=
  ⟨by norm_num [normalizeSpec, listMin, listMax],
   by norm_num [normalizeCode, listMin, listMax, List.replicate]⟩

/-- C6 (amended): the rescaling performs no zero-dynamic-range check: on any
nonempty matrix whose maximum equals its minimum it executes
`(x - min) / (max - min)` with a zero denominator and still returns a
result matrix of the same shape (junk entries), signaling no error. -/
theorem C6_no_degenerate_check (m : List (List ℚ)) (l u : ℚ)
    (hl : listMin m.flatten = some l) (hu : listMax m.flatten = some u) (_heq : l = u) :
    ∃ res, normalizeCode m = some res ∧ res.length = m.length ∧
      ∀ i, i < m.length → (res.getD i []).length = (m.getD i []).length := by
  refine ⟨m.map (fun row => row.map (fun x => (x - l) / (u - l))), ?_, by simp, ?_⟩
  · rw [normalizeCode, hl, hu]
  · intro i hi
    rw [List.getD_eq_getElem _ _ (by simpa using hi), List.getD_eq_getElem _ _ hi,
      List.getElem_map]
    simp

/-- Witness for the amended C6 on the flat matrix `[[1, 1], [1, 1]]`. -/
theorem C6_no_degenerate_check_witness :
    ∃ res, normalizeCode [[1, 1], [1, 1]] = some res ∧ res.length = 2 ∧
      ∀ i, i < ([[1, 1], [1, 1]] : List (List ℚ)).length →
        (res.getD i []).length = (([[1, 1], [1, 1]] : List (List ℚ)).getD i []).length :=
  C6_no_degenerate_check [[1, 1], [1, 1]] 1 1
    (by norm_num [listMin]) (by norm_num [listMax]) rfl

theorem sum0_length (active : List (List ℚ)) (N : ℕ)
    (h : ∀ r ∈ active, r.length = N) (hne : active ≠ []) : (sum0 active).length = N := by
  induction active with
  | nil => cases hne rfl
  | cons r rs ih =>
    cases rs with
    | nil => simpa using h r (by simp)
    | cons r2 rs2 =>
      have h1 : (sum0 (r2 :: rs2)).length = N :=
        ih (fun t ht => h t (List.mem_cons_of_mem _ ht)) (by simp)
      have h2 : r.length = N := h r (by simp)
      show ((sum0 (r2 :: rs2)).zipWith (· + ·) r).length = N
      rw [List.length_zipWith, h1, h2, min_self]

theorem sum0_getD (active : List (List ℚ)) (N j : ℕ)
    (h : ∀ r ∈ active, r.length = N) (hj : j < N) :
    (sum0 active).getD j 0 = (active.map (fun w => w.getD j 0)).sum := by
  induction active with
  | nil => simp [sum0]
  | cons r rs ih =>
    cases rs with
    | nil => simp [sum0]
    | cons r2 rs2 =>
      have hlen : (sum0 (r2 :: rs2)).length = N :=
        sum0_length _ _ (fun t ht => h t (List.mem_cons_of_mem _ ht)) (by simp)
      have hr : r.length = N := h r (by simp)
      have ihv := ih (fun t ht => h t (List.mem_cons_of_mem _ ht))
      show ((sum0 (r2 :: rs2)).zipWith (· + ·) r).getD j 0
        = ((r :: r2 :: rs2).map (fun w => w.getD j 0)).sum
      rw [List.getD_eq_getElem _ _ (by rw [List.length_zipWith, hlen, hr, min_self]; exact hj),
        List.getElem_zipWith, List.map_cons, List.sum_cons, ← ihv,
        List.getD_eq_getElem _ _ (by omega), List.getD_eq_getElem _ _ (by omega)]
      ring

theorem sum_map_sub_const (l : List ℚ) (c : ℚ) :
    (l.map (fun t => t - c)).sum = l.sum - l.length * c := by
  induction l with
  | nil => simp
  | cons a t ih =>
    simp only [List.map_cons, List.sum_cons, ih, List.length_cons]
    push_cast
    ring

/-- C4: under the dataset shape invariant (P rows, each of length N, with
`nphases = P ≥ 1`), the pipeline's average vector entry j is the mean of
column j, the delta matrix is the rowwise subtraction of the average, and
every column of the delta matrix sums to exactly 0. -/
theorem C4_residual_mean_zero_sum (active : List (List ℚ)) (P N i j : ℕ)
    (hP : active.length = P) (hP1 : 1 ≤ P) (hN : ∀ row ∈ active, row.length = N)
    (hi : i < P) (hj : j < N) :
    (avgSpec active P).getD j 0 = (active.map (fun row => row.getD j 0)).sum / (P : ℚ) ∧
    ((deltaImage active P).getD i []).getD j 0
      = (active.getD i []).getD j 0 - (avgSpec active P).getD j 0 ∧
    ((deltaImage active P).map (fun row => row.getD j 0)).sum = 0 := by
  have hne : active ≠ [] := by
    intro hc
    rw [hc] at hP
    simp at hP
    omega
  have hs0 : (sum0 active).length = N := sum0_length active N hN hne
  have havglen : (avgSpec active P).length = N := by
    rw [avgSpec, List.length_map, hs0]
  have part1 : (avgSpec active P).getD j 0
      = (active.map (fun row => row.getD j 0)).sum / (P : ℚ) := by
    rw [avgSpec, List.getD_eq_getElem _ _ (by rw [List.length_map]; omega),
      List.getElem_map, ← sum0_getD active N j hN hj,
      List.getD_eq_getElem _ _ (by omega)]
  have hia : i < active.length := by omega
  have hrowlen : ∀ row ∈ active, (row.zipWith (· - ·) (avgSpec active P)).getD j 0
      = row.getD j 0 - (avgSpec active P).getD j 0 := by
    intro row hrow
    have h1 : row.length = N := hN row hrow
    rw [List.getD_eq_getElem _ _ (by rw [List.length_zipWith]; omega),
      List.getElem_zipWith, List.getD_eq_getElem _ _ (by omega),
      List.getD_eq_getElem _ _ (by omega)]
  refine ⟨part1, ?_, ?_⟩
  · rw [deltaImage,
      List.getD_eq_getElem (active.map (fun row => row.zipWith (· - ·) (avgSpec active P))) []
        (by rw [List.length_map]; omega),
      List.getElem_map, List.getD_eq_getElem active [] hia]
    exact hrowlen (active[i]) (List.getElem_mem hia)
  · have hmap : (deltaImage active P).map (fun row => row.getD j 0)
        = active.map (fun row => row.getD j 0 - (avgSpec active P).getD j 0) := by
      rw [deltaImage, List.map_map]
      exact List.map_congr_left (fun row hrow => hrowlen row hrow)
    have hsub : active.map (fun row => row.getD j 0 - (avgSpec active P).getD j 0)
        = (active.map (fun row => row.getD j 0)).map
            (fun t => t - (avgSpec active P).getD j 0) := by
      rw [List.map_map]
      rfl
    have hPne : ((P : ℕ) : ℚ) ≠ 0 := Nat.cast_ne_zero.mpr (by omega)
    rw [hmap, hsub, sum_map_sub_const, List.length_map, hP, part1]
    field_simp

/-- Witness for C4 on the 2 × 2 matrix `[[1, 2], [3, 4]]`. -/
theorem C4_residual_mean_zero_sum_witness :
    (avgSpec [[1, 2], [3, 4]] 2).getD 1 0
      = (([[1, 2], [3, 4]] : List (List ℚ)).map (fun row => row.getD 1 0)).sum / ((2 : ℕ) : ℚ) ∧
    ((deltaImage [[1, 2], [3, 4]] 2).getD 0 []).getD 1 0
      = (([[1, 2], [3, 4]] : List (List ℚ)).getD 0 []).getD 1 0
          - (avgSpec [[1, 2], [3, 4]] 2).getD 1 0 ∧
    ((deltaImage [[1, 2], [3, 4]] 2).map (fun row => row.getD 1 0)).sum = 0 :=
  C4_residual_mean_zero_sum [[1, 2], [3, 4]] 2 2 0 1 rfl (by norm_num)
    (by norm_num) (by norm_num) (by norm_num)

/-- C10 counterexample: for the dataset with `phases = [0, 1]` (so
`nphases = 2`) but a 1-row active matrix `[[0]]`, the pipeline average
`[0/2] = [0]` coincides with the true columnwise mean `[0/1] = [0]` even
though the row count differs from `nphases` — refuting the "and silently
differs from it otherwise" (exactly-when) part of the claim. -/
theorem C10_counterexample :
    avgSpec [[0]] 2 = trueColMean [[0]] ∧
    ([[0]] : List (List ℚ)).length ≠ 2 := by
  constructor
  · norm_num [avgSpec, trueColMean, sum0]
  · norm_num

/-- C10 (amended): the pipeline average divides columnwise sums by
`nphases = len(phases)` rather than by the matrix's own row count (and no
operation checks the shape invariant); it equals the true columnwise mean
whenever `active` has `len(phases)` rows, and can silently differ
otherwise — e.g. `active = [[1]]` with `nphases = 2` yields `[1/2]` against
the true mean `[1]` — though the two can coincide on special inputs. -/
theorem C10_avg_divisor_nphases (d : DynamicSpectrum)
    (h : d.active.length = d.phases.length) :
    pipelineAvg d = trueColMean d.active ∧
    avgSpec [[1]] 2 = [1/2] ∧
    trueColMean [[1]] = [1] := by
  refine ⟨?_, by norm_num [avgSpec, sum0], by norm_num [trueColMean, sum0]⟩
  rw [pipelineAvg, DynamicSpectrum.nphases, avgSpec, trueColMean, h]

/-- Witness for the amended C10 on a dataset satisfying the shape
invariant. -/
theorem C10_avg_divisor_nphases_witness :
    pipelineAvg ⟨[0], [1], [0, 1], [[1], [2]]⟩ = trueColMean [[1], [2]] ∧
    avgSpec [[1]] 2 = [1/2] ∧
    trueColMean [[1]] = [1] :=
  C10_avg_divisor_nphases ⟨[0], [1], [0, 1], [[1], [2]]⟩ rfl

theorem nthTriplet_sigma (r : SVDResult) (j : ℕ) (t : ℚ × List ℚ × List ℚ)
    (h : nthTriplet r j = some t) : pyGet r.s (-(j : Int)) = some t.1 := by
  simp only [nthTriplet, Option.bind_eq_some, Option.map_eq_some'] at h
  obtain ⟨sv, hsv, pu, hpu, wv, hwv, ht⟩ := h
  rw [← ht]
  exact hsv

theorem sorted_getElem_le (s : List ℚ) (hs : s.Sorted (· ≤ ·)) (a b : ℕ)
    (ha : a < s.length) (hb : b < s.length) (hab : a ≤ b) : s[a] ≤ s[b] := by
  rcases Nat.eq_or_lt_of_le hab with h | h
  · subst h
    exact le_refl _
  · exact List.pairwise_iff_getElem.mp hs a b ha hb h

/-- C1: assuming the truncated-SVD primitive's contract (singular values
returned non-negative and in increasing order, k ≥ 2 of them), the
pipeline's negative-index selection of triplets preserves that order
exactly: the triplet taken at index `-j2` has a non-negative singular value
no larger than the one taken at `-j` whenever `j ≤ j2`, and the triplet at
the last index (`-1`) carries the maximum singular value of all those
returned. -/
theorem C1_svds_order_preserved (r : SVDResult) (j j2 : ℕ) (t t2 : ℚ × List ℚ × List ℚ)
    (hsort : r.s.Sorted (· ≤ ·)) (hnn : ∀ x ∈ r.s, 0 ≤ x) (hk : 2 ≤ r.s.length)
    (hj1 : 1 ≤ j) (hjj : j ≤ j2) (hj2 : j2 ≤ r.s.length)
    (ht : nthTriplet r j = some t) (ht2 : nthTriplet r j2 = some t2) :
    (0 ≤ t2.1 ∧ t2.1 ≤ t.1) ∧ (j = 1 → ∀ x ∈ r.s, x ≤ t.1) := by
  have hs1 := nthTriplet_sigma r j t ht
  have hs2 := nthTriplet_sigma r j2 t2 ht2
  rw [pyGet_neg _ _ (by omega) (by omega)] at hs1
  rw [pyGet_neg _ _ (by omega) (by omega)] at hs2
  obtain ⟨hb1, he1⟩ := List.getElem?_eq_some.mp hs1
  obtain ⟨hb2, he2⟩ := List.getElem?_eq_some.mp hs2
  constructor
  · constructor
    · rw [← he2]
      exact hnn _ (List.getElem_mem hb2)
    · rw [← he1, ← he2]
      exact sorted_getElem_le r.s hsort (r.s.length - j2) (r.s.length - j) hb2 hb1 (by omega)
  · intro hj1eq x hx
    obtain ⟨i, hi, hix⟩ := List.mem_iff_getElem.mp hx
    rw [← he1, ← hix]
    subst hj1eq
    exact sorted_getElem_le r.s hsort i (r.s.length - 1) hi hb1 (by omega)

/-- Witness for C1 on a concrete SVD output with `s = [1, 2]` (increasing,
non-negative), selecting the dominant triplet at `-1` and the next at
`-2`. -/
theorem C1_svds_order_preserved_witness :
    ((0 : ℚ) ≤ 1 ∧ (1 : ℚ) ≤ 2) ∧
    ((1 : ℕ) = 1 → ∀ x ∈ ([1, 2] : List ℚ), x ≤ (2 : ℚ)) :=
  C1_svds_order_preserved
    { U := [[1, 0], [0, 1]], s := [1, 2], Vt := [[1, 0, 0], [0, 1, 0]] }
    1 2 (2, [0, 1], [0, 1, 0]) (1, [1, 0], [1, 0, 0])
    (by norm_num [List.sorted_cons]) (by norm_num) (by norm_num)
    (by norm_num) (by norm_num) (by norm_num)
    (by norm_num [nthTriplet, pyGet, pyColumn, Int.toNat, List.mapM, List.mapM.loop])
    (by norm_num [nthTriplet, pyGet, pyColumn, Int.toNat, List.mapM, List.mapM.loop])
